import Mathlib

/-!
Verification of the VarTable repository (a C++11 header-only utility that
pretty-prints a fixed-schema table to a stream) against its natural-language
specification.

The development is a shallow embedding of `VarTable.h`:

* the variadic template `VarTable<Ts...>` is modelled by the structure
  `VarTable` below, whose rows are lists of tagged `CellValue`s
  (text / integral / floating);
* `double` cell payloads are idealized as exact decimal values
  `mant / 10 ^ fexp` (`DecF`), and the iostream numeric conversions
  (`std::fixed`, `std::scientific`, default float, `setprecision`) are
  modelled as correctly rounded (round half to even) decimal conversions of
  that exact value, which is what printf-style formatting performs on the
  values appearing in this repository;
* the mutable `std::ostream` formatting state that `print_each` manipulates
  (`setprecision`, `std::fixed`/`std::scientific`, `unsetf(floatfield)`) is
  threaded explicitly as a `StreamState`;
* `print` writes to a caller stream; we model a sink in the default iostream
  state (precision 6, defaultfloat) and return the emitted lines;
* the C++ `assert` calls guarding the constructor and the three list-valued
  setters are active in both Makefile build modes (no `-DNDEBUG`), so a
  length mismatch aborts before any mutation; this is modelled by `Option` /
  `Except ConfigError` results carrying no successor state;
* `std::log10` applied to a negative integral cell yields NaN, and the
  conversion of NaN to `size_t` is undefined behaviour; this is modelled by
  `sizeOfDataInt` returning `none`, which propagates through the sizing pass
  and `print`.
-/

/-! ## Decimal digit strings -/

/-- Fuel-driven core of `digits10`: decimal digit count of `n`, `0` for `n = 0`. -/
def digits10Aux : Nat → Nat → Nat
  | 0, _ => 0
  | fuel + 1, n => if n = 0 then 0 else digits10Aux fuel (n / 10) + 1

/-- Number of decimal digits of a positive natural number (`digits10 0 = 0`).
The fuel `n + 1` dominates the digit count, so the recursion always finishes. -/
def digits10 (n : Nat) : Nat := digits10Aux (n + 1) n

/-- Fuel-driven core of `natStr`: decimal digit characters of `n`, `[]` for `0`. -/
def natStrAux : Nat → Nat → List Char
  | 0, _ => []
  | fuel + 1, n => if n = 0 then [] else natStrAux fuel (n / 10) ++ [Nat.digitChar (n % 10)]

/-- Decimal string of a natural number. -/
def natStr (n : Nat) : String := if n = 0 then "0" else String.mk (natStrAux (n + 1) n)

/-- Decimal string of an integer, with a leading minus sign when negative
(the form `operator<<` emits for integral values). -/
def intStr (v : Int) : String := (if v < 0 then "-" else "") ++ natStr v.natAbs

/-- Exactly `p` decimal digit characters: the last `p` digits of `m`,
zero-padded on the left. -/
def padDigits : Nat → Nat → List Char
  | 0, _ => []
  | p + 1, m => padDigits p (m / 10) ++ [Nat.digitChar (m % 10)]

/-- Remove trailing `'0'` characters. -/
def stripZeros (l : List Char) : List Char := (l.reverse.dropWhile (fun c => c = '0')).reverse

/-! ## Idealized floating-point payloads and iostream numeric conversions -/

/-- Idealized `double` payload: the exact decimal value `mant / 10 ^ fexp`.
The doubles fed to this repository are decimal literals, so exact decimal
values model them; formatting is modelled as correctly rounded conversion of
this exact value. -/
structure DecF where
  mant : Int
  fexp : Nat
deriving DecidableEq, Repr

/-- Round the fraction `num / den` (with `den > 0`) to the nearest natural
number, ties to even — the rounding printf-style conversions apply. -/
def roundHalfEvenPos (num den : Nat) : Nat :=
  let q := num / den
  let r := num % den
  if 2 * r < den then q
  else if den < 2 * r then q + 1
  else if q % 2 = 0 then q else q + 1

/-- Round `|v| * 10 ^ k` (for `k : Int`) to the nearest natural, ties to even. -/
def decRoundAbs (v : DecF) (k : Int) : Nat :=
  if 0 ≤ k then roundHalfEvenPos (v.mant.natAbs * 10 ^ k.toNat) (10 ^ v.fexp)
  else roundHalfEvenPos v.mant.natAbs (10 ^ (v.fexp + (-k).toNat))

/-- Assemble sign, integer digits and `p` fractional digits of the scaled
rounded magnitude `n ≈ |v| * 10 ^ p` (no decimal point when `p = 0`,
matching printf `%.0f`). -/
def fixedAssemble (neg : Bool) (p : Nat) (n : Nat) : String :=
  (if neg then "-" else "") ++
    (if p = 0 then natStr n
     else natStr (n / 10 ^ p) ++ "." ++ String.mk (padDigits p (n % 10 ^ p)))

/-- Conversion performed by `stream << std::fixed << v` at precision `p`:
`p` digits after the decimal point, correctly rounded. -/
def renderFixed (p : Nat) (v : DecF) : String :=
  fixedAssemble (v.mant < 0) p (decRoundAbs v (p : Int))

/-- Decimal exponent of `|v|` (the unique `e` with `10 ^ e ≤ |v| < 10 ^ (e+1)`),
meaningful only for `v.mant ≠ 0`. -/
def decExp10 (v : DecF) : Int := (digits10 v.mant.natAbs : Int) - 1 - (v.fexp : Int)

/-- Exponent field of a scientific conversion: `e±dd` with at least two digits. -/
def expPart (e : Int) : String :=
  "e" ++ (if e < 0 then "-" else "+") ++
    (if e.natAbs < 10 then "0" ++ natStr e.natAbs else natStr e.natAbs)

/-- Conversion performed by `stream << std::scientific << v` at precision `p`. -/
def renderSci (p : Nat) (v : DecF) : String :=
  if v.mant = 0 then fixedAssemble false p 0 ++ expPart 0
  else
    let e := decExp10 v
    let m := decRoundAbs v ((p : Int) - e)
    let me := if 10 ^ (p + 1) ≤ m then (10 ^ p, e + 1) else (m, e)
    fixedAssemble (v.mant < 0) p me.1 ++ expPart me.2

/-- Conversion performed by the default float format (`%g` style) at
precision `prec`: `P := max 1 prec` significant digits, fixed or scientific
style chosen from the decimal exponent, trailing zeros stripped. -/
def renderDefaultFloat (prec : Int) (v : DecF) : String :=
  let P := max 1 prec.toNat
  if v.mant = 0 then "0"
  else
    let e0 := decExp10 v
    let m0 := decRoundAbs v ((P : Int) - 1 - e0)
    let me := if 10 ^ P ≤ m0 then (10 ^ (P - 1), e0 + 1) else (m0, e0)
    let m := me.1
    let e := me.2
    let sign := if v.mant < 0 then "-" else ""
    if e < -4 ∨ (P : Int) ≤ e then
      let frac := stripZeros (padDigits (P - 1) (m % 10 ^ (P - 1)))
      sign ++ natStr (m / 10 ^ (P - 1)) ++
        (if frac = [] then "" else "." ++ String.mk frac) ++ expPart e
    else if 0 ≤ e then
      let fd := P - 1 - e.toNat
      let frac := stripZeros (padDigits fd (m % 10 ^ fd))
      sign ++ natStr (m / 10 ^ fd) ++ (if frac = [] then "" else "." ++ String.mk frac)
    else
      let zs := (-e).toNat - 1
      let frac := stripZeros (List.replicate zs '0' ++ padDigits P m)
      sign ++ "0" ++ (if frac = [] then "" else "." ++ String.mk frac)

/-! ## Basic padding strings -/

/-- A run of `n` spaces (`std::string(n, ' ')`). -/
def spaces (n : Nat) : String := String.mk (List.replicate n ' ')

/-- A run of `n` dashes (`std::string(n, '-')`). -/
def dashes (n : Nat) : String := String.mk (List.replicate n '-')

/-- Concatenation of a list of strings. -/
def strConcat (l : List String) : String := l.foldr (fun a b => a ++ b) ""

/-- Pad `s` on the right with spaces up to width `w` (`setw(w)` with
`std::left`); `setw` is a minimum, so a longer `s` is not truncated. -/
def padRight (w : Nat) (s : String) : String := s ++ spaces (w - s.length)

/-- Pad `s` on the left with spaces up to width `w` (`setw(w)` with
`std::right`). -/
def padLeft (w : Nat) (s : String) : String := spaces (w - s.length) ++ s

/-- Pad a signed numeric string to width `w` with the fill between the sign
and the digits (`setw(w)` with `std::internal` on an arithmetic insertion). -/
def padInternal (w : Nat) (s : String) : String :=
  match s.data with
  | '-' :: rest => "-" ++ spaces (w - s.length) ++ String.mk rest
  | _ => padLeft w s

/-! ## The table data model (shallow embedding of VarTable.h) -/

/-- Used to specify the column format. -/
inductive VarTableColumnFormat
  | AUTO
  | SCIENTIFIC
  | FIXED
  | PERCENT
deriving DecidableEq, Repr

/-- Used to specify the print style. -/
inductive PrintStyle
  | BASIC
  | SIMPLE
  | EMPTY
  | FULL
deriving DecidableEq, Repr

/-- Used to specify the alignment style. -/
inductive AlignmentStyle
  | LEFT
  | RIGHT
  | INTERNAL
deriving DecidableEq, Repr

/-- One cell of a row: the column types `Ts...` of the template are modelled
by tagged values — text with a `size()` member (`std::string`), an integral
value, or a floating value (no `size()` member, not integral, so its sizing
falls back to the static column size). -/
inductive CellValue
  | str (s : String)
  | intVal (v : Int)
  | floatVal (v : DecF)
deriving DecidableEq, Repr

/-- State of a `VarTable<Ts...>` instance: one field per data member of the
C++ class. -/
structure VarTable where
  headers : List String
  num_columns : Nat
  static_column_size : Nat
  cell_padding : Nat
  data : List (List CellValue)
  column_sizes : List Nat
  column_format : List VarTableColumnFormat
  print_style : PrintStyle
  alignment_style : List AlignmentStyle
  precision : List Int
deriving DecidableEq, Repr

/-- Error raised when a list-valued setter is called with a list whose length
differs from the column count (the C++ `assert` aborts; `-DNDEBUG` is not set
in either Makefile build). -/
inductive ConfigError
  | ConfigMismatch
deriving DecidableEq, Repr

/-- Constructor `VarTable(headers, static_column_size, cell_padding)`: the
`assert(headers.size() == _num_columns)` is modelled by `none` (schema
mismatch aborts); `_print_style` starts as `BASIC`, every other vector empty. -/
def mkVarTable (num_columns : Nat) (headers : List String)
    (static_column_size : Nat) (cell_padding : Nat) : Option VarTable :=
  if headers.length = num_columns then
    some { headers := headers
           num_columns := num_columns
           static_column_size := static_column_size
           cell_padding := cell_padding
           data := []
           column_sizes := []
           column_format := []
           print_style := .BASIC
           alignment_style := []
           precision := [] }
  else none

/-- Member `addRow(entries...)`: appends one row (the template enforces that a
row has exactly `num_columns` cells of the column types; well-formedness of a
row is carried as a hypothesis where needed). -/
def VarTable.addRow (t : VarTable) (row : List CellValue) : VarTable :=
  { t with data := t.data ++ [row] }

/-- Member `setColumnFormat`: the length `assert` aborts before the
assignment, so a mismatched list is rejected with no state change; a matching
list replaces `_column_format` wholesale. -/
def VarTable.setColumnFormat (t : VarTable) (fmts : List VarTableColumnFormat) :
    Except ConfigError VarTable :=
  if fmts.length = t.num_columns then .ok { t with column_format := fmts }
  else .error .ConfigMismatch

/-- Member `setPrintStyle`. -/
def VarTable.setPrintStyle (t : VarTable) (s : PrintStyle) : VarTable :=
  { t with print_style := s }

/-- Member `setAlignmentStyle`: same abort-before-mutation contract as
`setColumnFormat`. -/
def VarTable.setAlignmentStyle (t : VarTable) (al : List AlignmentStyle) :
    Except ConfigError VarTable :=
  if al.length = t.num_columns then .ok { t with alignment_style := al }
  else .error .ConfigMismatch

/-- Member `setColumnPrecision`: same abort-before-mutation contract as
`setColumnFormat`. -/
def VarTable.setColumnPrecision (t : VarTable) (pr : List Int) :
    Except ConfigError VarTable :=
  if pr.length = t.num_columns then .ok { t with precision := pr }
  else .error .ConfigMismatch

/-! ## The sizing pass (`sizeOfData`, `size_each`, `size_columns`) -/

/-- Integral overload of `sizeOfData`: `0` has length `1`; a positive value
has `std::log10(data) + 1` digits (exact decimal digit count); for a negative
value `std::log10` yields NaN and converting NaN to `size_t` is undefined
behaviour, modelled as `none`. -/
def sizeOfDataInt (v : Int) : Option Nat :=
  if v = 0 then some 1
  else if 0 < v then some (digits10 v.toNat)
  else none

/-- Dispatch of the three `sizeOfData` overloads on the cell's type: a type
with a `size()` member uses it, an integral type uses the digit count, and
anything else falls back to `_static_column_size`. -/
def sizeOfData (static_column_size : Nat) : CellValue → Option Nat
  | .str s => some s.length
  | .intVal v => sizeOfDataInt v
  | .floatVal _ => some static_column_size

/-- Core of `size_each`: the printed size of each element of a row, with the
override `sizes[I] = 6` for a `PERCENT` column when `_column_format` is
non-empty. -/
def sizeEachAux (static_column_size : Nat) (fmts : List VarTableColumnFormat) :
    Nat → List CellValue → Option (List Nat)
  | _, [] => some []
  | i, c :: rest =>
    match sizeOfData static_column_size c with
    | none => none
    | some sz =>
      let sz := if fmts ≠ [] ∧ fmts.getD i .AUTO = .PERCENT then 6 else sz
      match sizeEachAux static_column_size fmts (i + 1) rest with
      | none => none
      | some rs => some (sz :: rs)

/-- Member `size_each`: sizes of one row's entries (index recursion starts
at `0`). -/
def size_each (static_column_size : Nat) (fmts : List VarTableColumnFormat)
    (row : List CellValue) : Option (List Nat) :=
  sizeEachAux static_column_size fmts 0 row

/-- Fold of `size_columns` over the rows: the accumulator is maxed pointwise
with each row's entry sizes. -/
def sizeColumnsFrom (static_column_size : Nat) (fmts : List VarTableColumnFormat) :
    List Nat → List (List CellValue) → Option (List Nat)
  | acc, [] => some acc
  | acc, row :: rest =>
    match size_each static_column_size fmts row with
    | none => none
    | some cs => sizeColumnsFrom static_column_size fmts (List.zipWith max acc cs) rest

/-- Member `size_columns`: start from the header lengths and take the
pointwise maximum with every row's entry sizes. -/
def size_columns (t : VarTable) : Option (List Nat) :=
  sizeColumnsFrom t.static_column_size t.column_format
    (t.headers.map String.length) t.data

/-! ## The emission pass (`print_each`, `print_plus`, `print`) -/

/-- Floatfield state of the output stream: defaultfloat, `std::fixed`, or
`std::scientific`. -/
inductive FloatField
  | df
  | fx
  | sc
deriving DecidableEq, Repr

/-- Formatting state of the output stream that `print_each` mutates:
`precision` and the floatfield flags. -/
structure StreamState where
  prec : Int
  ff : FloatField
deriving DecidableEq, Repr

/-- Default-constructed stream formatting state (`std::cout` before any
manipulator): precision 6, defaultfloat. -/
def initStream : StreamState := { prec := 6, ff := .df }

/-- Effect of the `setprecision(_precision[I])` call guarded by
`!_precision.empty()`. -/
def applyPrecision (t : VarTable) (i : Nat) (st : StreamState) : StreamState :=
  if t.precision = [] then st else { st with prec := t.precision.getD i 0 }

/-- Effect of the format block guarded by `!_column_format.empty()`:
`SCIENTIFIC` and `FIXED` set the floatfield, `PERCENT` sets `std::fixed` and
forces `setprecision(2)`, `AUTO` leaves the stream untouched. -/
def applyFormat (t : VarTable) (i : Nat) (st : StreamState) : StreamState :=
  if t.column_format = [] then st
  else
    match t.column_format.getD i .AUTO with
    | .SCIENTIFIC => { st with ff := .sc }
    | .FIXED => { st with ff := .fx }
    | .PERCENT => { st with ff := .fx, prec := 2 }
    | .AUTO => st

/-- Effect of the trailing `stream.unsetf(std::ios_base::floatfield)` guarded
by `!_column_format.empty()`: only the floatfield is cleared — the precision
is left as is. -/
def resetFormat (t : VarTable) (st : StreamState) : StreamState :=
  if t.column_format = [] then st else { st with ff := .df }

/-- Characters produced by `stream << val` in formatting state `st`: text and
integral insertions ignore precision and floatfield; a floating insertion uses
them. -/
def renderValue (st : StreamState) : CellValue → String
  | .str s => s
  | .intVal v => intStr v
  | .floatVal v =>
    match st.ff with
    | .df => renderDefaultFloat st.prec v
    | .fx => renderFixed st.prec.toNat v
    | .sc => renderSci st.prec.toNat v

/-- String inserted for the cell at column `i` of a row, given the incoming
stream state: precision then format are applied, then the value is converted. -/
def cellValueStr (t : VarTable) (i : Nat) (st : StreamState) (c : CellValue) : String :=
  renderValue (applyFormat t i (applyPrecision t i st)) c

/-- `justify_empty`: the default alignment chosen by overload resolution when
`_alignment_style` is empty — `std::right` for arithmetic types, `std::left`
otherwise. -/
def defaultAlign : CellValue → AlignmentStyle
  | .str _ => .LEFT
  | .intVal _ => .RIGHT
  | .floatVal _ => .RIGHT

/-- Alignment used for the cell at column `i`: the configured entry when
`_alignment_style` is non-empty, the type-driven default otherwise. -/
def alignOf (t : VarTable) (i : Nat) (c : CellValue) : AlignmentStyle :=
  if t.alignment_style = [] then defaultAlign c else t.alignment_style.getD i .LEFT

/-- Padding of the inserted value to the column width by `setw`/justification.
For a text insertion `std::internal` pads in front (like `std::right`); for an
arithmetic insertion it pads between the sign and the digits. -/
def justifyCell (al : AlignmentStyle) (c : CellValue) (w : Nat) (s : String) : String :=
  match al with
  | .LEFT => padRight w s
  | .RIGHT => padLeft w s
  | .INTERNAL =>
    match c with
    | .str _ => padLeft w s
    | _ => padInternal w s

/-- One rendered cell between separators: cell padding, the value justified
in `setw(_column_sizes[I])`, cell padding. -/
def cellBodyOf (t : VarTable) (i : Nat) (c : CellValue) (s : String) : String :=
  spaces t.cell_padding ++ justifyCell (alignOf t i c) c (t.column_sizes.getD i 0) s
    ++ spaces t.cell_padding

/-- Recursion of `print_each` over a row, threading the stream formatting
state: each step returns the inserted value string and the padded cell body,
and passes on the state with only the floatfield cleared. -/
def rowCellsAux (t : VarTable) : Nat → StreamState → List CellValue → List (String × String)
  | _, _, [] => []
  | i, st, c :: rest =>
    let st1 := applyFormat t i (applyPrecision t i st)
    let v := renderValue st1 c
    (v, cellBodyOf t i c v) :: rowCellsAux t (i + 1) (resetFormat t st1) rest

/-- Value strings inserted for one row (stream starting in the default state,
as for a fresh `std::cout`). -/
def rowValues (t : VarTable) (row : List CellValue) : List String :=
  (rowCellsAux t 0 initStream row).map Prod.fst

/-- Padded cell bodies of one row. -/
def rowBodies (t : VarTable) (row : List CellValue) : List String :=
  (rowCellsAux t 0 initStream row).map Prod.snd

/-- Column separator: `"|"` for the bordered styles, a space for `SIMPLE`
and `EMPTY`. -/
def sepChar (s : PrintStyle) : String :=
  if s ≠ .SIMPLE ∧ s ≠ .EMPTY then "|" else " "

/-- One emitted data-row line: leading separator, then each cell body
followed by a separator. -/
def rowLine (t : VarTable) (row : List CellValue) : String :=
  sepChar t.print_style ++
    strConcat ((rowBodies t row).map (fun b => b ++ sepChar t.print_style))

/-- One rendered header cell: the header text centered by prepending
`_column_sizes[i]/2 - _headers[i].size()/2` spaces and left-justifying in
`setw(_column_sizes[i])`, surrounded by cell padding. -/
def headerCell (pad w : Nat) (h : String) : String :=
  spaces pad ++ padRight w (spaces (w / 2 - h.length / 2) ++ h) ++ spaces pad

/-- The emitted header line. -/
def headerLine (t : VarTable) : String :=
  sepChar t.print_style ++
    strConcat ((t.headers.zip t.column_sizes).map
      (fun p => headerCell t.cell_padding p.2 p.1 ++ sepChar t.print_style))

/-- The `+---+---+` border line emitted by `print_plus` for `BASIC`/`FULL`. -/
def plusLine (t : VarTable) : String :=
  "+" ++ strConcat (t.column_sizes.map
    (fun w => dashes (w + 2 * t.cell_padding) ++ "+"))

/-- The space-bordered dash line emitted by `print_plus` for `SIMPLE`. -/
def simpleLine (t : VarTable) : String :=
  " " ++ strConcat (t.column_sizes.map
    (fun w => dashes (w + 2 * t.cell_padding) ++ " "))

/-- Member `print_plus`: one border line for `BASIC`/`FULL`, one space-dash
line for `SIMPLE`, nothing for `EMPTY` (the `default:` case). -/
def print_plus (t : VarTable) : List String :=
  match t.print_style with
  | .BASIC => [plusLine t]
  | .FULL => [plusLine t]
  | .SIMPLE => [simpleLine t]
  | .EMPTY => []

/-- Emission sequence of `print` after `_column_sizes` has been updated:
optional top border, header line, line below the header (emitted unless the
style is `EMPTY`), each data row (followed by a border for `FULL`), and a
bottom border for `BASIC`. -/
def printLayout (t : VarTable) : List String :=
  (if t.print_style ≠ .SIMPLE ∧ t.print_style ≠ .EMPTY then print_plus t else []) ++
    (headerLine t :: (if t.print_style ≠ .EMPTY then print_plus t else [])) ++
    (t.data.flatMap
      (fun row => rowLine t row :: (if t.print_style = .FULL then print_plus t else []))) ++
    (if t.print_style = .BASIC then print_plus t else [])

/-- Member `print`: recompute `_column_sizes` (the only state `print`
mutates), then emit the layout. Returns the updated instance and the emitted
lines; `none` models the undefined behaviour of the sizing pass on a negative
integral cell. -/
def VarTable.print (t0 : VarTable) : Option (VarTable × List String) :=
  match size_columns t0 with
  | none => none
  | some sizes =>
    let t := { t0 with column_sizes := sizes }
    some (t, printLayout t)

/-- Bytes written to the sink by `print`: each line followed by a newline. -/
def VarTable.printString (t0 : VarTable) : Option String :=
  match t0.print with
  | none => none
  | some p => some (strConcat (p.2.map (fun l => l ++ "\n")))

/-! ## Length lemmas for the padding primitives -/

theorem spaces_length (n : Nat) : (spaces n).length = n := by
  show (List.replicate n ' ').length = n
  simp

theorem dashes_length (n : Nat) : (dashes n).length = n := by
  show (List.replicate n '-').length = n
  simp

theorem strConcat_length (l : List String) :
    (strConcat l).length = (l.map String.length).sum := by
  induction l with
  | nil => rfl
  | cons a tl ih => simp [strConcat, String.length_append] at ih ⊢; omega

theorem padRight_length (w : Nat) (s : String) :
    (padRight w s).length = max w s.length := by
  simp [padRight, String.length_append, spaces_length]
  omega

theorem padLeft_length (w : Nat) (s : String) :
    (padLeft w s).length = max w s.length := by
  simp [padLeft, String.length_append, spaces_length]
  omega

theorem padInternal_length (w : Nat) (s : String) :
    (padInternal w s).length = max w s.length := by
  unfold padInternal
  split
  · next rest heq =>
    have hlen : s.length = rest.length + 1 := by
      show s.data.length = _
      rw [heq]
      simp
    have h1 : ("-" : String).length = 1 := rfl
    have h2 : (String.mk rest).length = rest.length := rfl
    simp [String.length_append, spaces_length, h1, h2, hlen]
    omega
  · exact padLeft_length w s

theorem justifyCell_length (al : AlignmentStyle) (c : CellValue) (w : Nat) (s : String) :
    (justifyCell al c w s).length = max w s.length := by
  cases al with
  | LEFT => exact padRight_length w s
  | RIGHT => exact padLeft_length w s
  | INTERNAL =>
    cases c with
    | str s' => exact padLeft_length w s
    | intVal v => exact padInternal_length w s
    | floatVal v => exact padInternal_length w s

theorem sepChar_length (st : PrintStyle) : (sepChar st).length = 1 := by
  unfold sepChar
  split <;> rfl

theorem headerCell_length (pad w : Nat) (h : String) (hle : h.length ≤ w) :
    (headerCell pad w h).length = w + 2 * pad := by
  have hinner : (spaces (w / 2 - h.length / 2) ++ h).length = w / 2 - h.length / 2 + h.length := by
    simp [String.length_append, spaces_length]
  have hfit : w / 2 - h.length / 2 + h.length ≤ w := by omega
  simp [headerCell, String.length_append, spaces_length, padRight_length, hinner]
  omega

/-! ## Digit-count lemmas -/

theorem digits10Aux_zero (fuel : Nat) : digits10Aux fuel 0 = 0 := by
  cases fuel <;> simp [digits10Aux]

theorem digits10Aux_eq_log (fuel n : Nat) (hn : 0 < n) (hf : n ≤ fuel) :
    digits10Aux fuel n = Nat.log 10 n + 1 := by
  induction fuel generalizing n with
  | zero => omega
  | succ fuel ih =>
    have hnz : n ≠ 0 := by omega
    simp only [digits10Aux, hnz, if_false]
    by_cases hlt : n < 10
    · have hdiv : n / 10 = 0 := Nat.div_eq_of_lt hlt
      rw [hdiv, digits10Aux_zero]
      have : Nat.log 10 n = 0 := Nat.log_eq_zero_iff.mpr (Or.inl hlt)
      omega
    · have h10 : 10 ≤ n := by omega
      have hdpos : 0 < n / 10 := Nat.div_pos h10 (by norm_num)
      have hdlt : n / 10 < n := Nat.div_lt_self hn (by norm_num)
      rw [ih (n / 10) hdpos (by omega)]
      have hld : Nat.log 10 (n / 10) = Nat.log 10 n - 1 := Nat.log_div_base 10 n
      have hlp : 0 < Nat.log 10 n := Nat.log_pos (by norm_num) h10
      omega

theorem digits10_eq_log (n : Nat) (hn : 0 < n) : digits10 n = Nat.log 10 n + 1 :=
  digits10Aux_eq_log (n + 1) n hn (by omega)

/-! ## Lemmas about the sizing pass -/

theorem sizeEachAux_length (ssz : Nat) (fmts : List VarTableColumnFormat) :
    ∀ (row : List CellValue) (i : Nat) (cs : List Nat),
      sizeEachAux ssz fmts i row = some cs → cs.length = row.length := by
  intro row
  induction row with
  | nil => intro i cs h; simp [sizeEachAux] at h; simp [← h]
  | cons c rest ih =>
    intro i cs h
    simp only [sizeEachAux] at h
    cases hsd : sizeOfData ssz c with
    | none => rw [hsd] at h; simp at h
    | some sz =>
      rw [hsd] at h
      cases hrec : sizeEachAux ssz fmts (i + 1) rest with
      | none => rw [hrec] at h; simp at h
      | some rs =>
        rw [hrec] at h
        simp at h
        rw [← h]
        simp [ih (i + 1) rs hrec]

theorem size_each_length (ssz : Nat) (fmts : List VarTableColumnFormat)
    (row : List CellValue) (cs : List Nat) (h : size_each ssz fmts row = some cs) :
    cs.length = row.length :=
  sizeEachAux_length ssz fmts row 0 cs h

theorem forall₂_le_refl (l : List Nat) : List.Forall₂ (· ≤ ·) l l := by
  induction l with
  | nil => exact List.Forall₂.nil
  | cons a tl ih => exact List.Forall₂.cons (Nat.le_refl a) ih

theorem forall₂_le_trans {a b c : List Nat} (hab : List.Forall₂ (· ≤ ·) a b)
    (hbc : List.Forall₂ (· ≤ ·) b c) : List.Forall₂ (· ≤ ·) a c := by
  induction hab generalizing c with
  | nil => cases hbc; exact List.Forall₂.nil
  | cons hxy htl ih =>
    cases hbc with
    | cons hyz htl' => exact List.Forall₂.cons (Nat.le_trans hxy hyz) (ih htl')

theorem forall₂_le_zipWith_max_left :
    ∀ (a b : List Nat), a.length = b.length →
      List.Forall₂ (· ≤ ·) a (List.zipWith max a b) := by
  intro a
  induction a with
  | nil => intro b _; exact List.Forall₂.nil
  | cons x xs ih =>
    intro b hlen
    cases b with
    | nil => simp at hlen
    | cons y ys =>
      exact List.Forall₂.cons (Nat.le_max_left x y) (ih ys (by simpa using hlen))

theorem forall₂_le_zipWith_max_right :
    ∀ (a b : List Nat), a.length = b.length →
      List.Forall₂ (· ≤ ·) b (List.zipWith max a b) := by
  intro a
  induction a with
  | nil => intro b hlen; cases b; exact List.Forall₂.nil; simp at hlen
  | cons x xs ih =>
    intro b hlen
    cases b with
    | nil => simp at hlen
    | cons y ys =>
      exact List.Forall₂.cons (Nat.le_max_right x y) (ih ys (by simpa using hlen))

theorem forall₂_get? {R : Nat → Nat → Prop} :
    ∀ {l1 l2 : List Nat}, List.Forall₂ R l1 l2 → ∀ {i : Nat} {a : Nat},
      l1.get? i = some a → ∃ b, l2.get? i = some b ∧ R a b := by
  intro l1 l2 h
  induction h with
  | nil => intro i a ha; simp at ha
  | cons hxy htl ih =>
    intro i a ha
    cases i with
    | zero => simp at ha; exact ⟨_, rfl, ha ▸ hxy⟩
    | succ j => exact ih ha

theorem sizeColumnsFrom_length (ssz : Nat) (fmts : List VarTableColumnFormat) :
    ∀ (rows : List (List CellValue)) (acc sizes : List Nat),
      sizeColumnsFrom ssz fmts acc rows = some sizes →
      (∀ r ∈ rows, r.length = acc.length) → sizes.length = acc.length := by
  intro rows
  induction rows with
  | nil => intro acc sizes h _; simp [sizeColumnsFrom] at h; simp [← h]
  | cons row rest ih =>
    intro acc sizes h hlen
    simp only [sizeColumnsFrom] at h
    cases hse : size_each ssz fmts row with
    | none => rw [hse] at h; simp at h
    | some cs =>
      rw [hse] at h
      have hcs : cs.length = acc.length := by
        rw [size_each_length ssz fmts row cs hse]
        exact hlen row (by simp)
      have hacc' : (List.zipWith max acc cs).length = acc.length := by
        simp [hcs]
      have := ih (List.zipWith max acc cs) sizes h
        (fun r hr => by rw [hacc']; exact hlen r (by simp [hr]))
      omega

theorem sizeColumnsFrom_mono (ssz : Nat) (fmts : List VarTableColumnFormat) :
    ∀ (rows : List (List CellValue)) (acc sizes : List Nat),
      sizeColumnsFrom ssz fmts acc rows = some sizes →
      (∀ r ∈ rows, r.length = acc.length) →
      List.Forall₂ (· ≤ ·) acc sizes := by
  intro rows
  induction rows with
  | nil =>
    intro acc sizes h _
    simp [sizeColumnsFrom] at h
    rw [← h]
    exact forall₂_le_refl acc
  | cons row rest ih =>
    intro acc sizes h hlen
    simp only [sizeColumnsFrom] at h
    cases hse : size_each ssz fmts row with
    | none => rw [hse] at h; simp at h
    | some cs =>
      rw [hse] at h
      have hcs : cs.length = acc.length := by
        rw [size_each_length ssz fmts row cs hse]
        exact hlen row (by simp)
      have hacc' : (List.zipWith max acc cs).length = acc.length := by
        simp [hcs]
      have hmono := ih (List.zipWith max acc cs) sizes h
        (fun r hr => by rw [hacc']; exact hlen r (by simp [hr]))
      exact forall₂_le_trans (forall₂_le_zipWith_max_left acc cs hcs.symm) hmono

theorem sizeColumnsFrom_row (ssz : Nat) (fmts : List VarTableColumnFormat) :
    ∀ (rows : List (List CellValue)) (acc sizes : List Nat) (r : List CellValue),
      sizeColumnsFrom ssz fmts acc rows = some sizes →
      (∀ r' ∈ rows, r'.length = acc.length) → r ∈ rows →
      ∃ cs, size_each ssz fmts r = some cs ∧ List.Forall₂ (· ≤ ·) cs sizes := by
  intro rows
  induction rows with
  | nil => intro acc sizes r _ _ hmem; simp at hmem
  | cons row rest ih =>
    intro acc sizes r h hlen hmem
    simp only [sizeColumnsFrom] at h
    cases hse : size_each ssz fmts row with
    | none => rw [hse] at h; simp at h
    | some cs =>
      rw [hse] at h
      have hcs : cs.length = acc.length := by
        rw [size_each_length ssz fmts row cs hse]
        exact hlen row (by simp)
      have hacc' : (List.zipWith max acc cs).length = acc.length := by
        simp [hcs]
      have hlen' : ∀ r' ∈ rest, r'.length = (List.zipWith max acc cs).length :=
        fun r' hr => by rw [hacc']; exact hlen r' (by simp [hr])
      rcases List.mem_cons.mp hmem with heq | htail
      · subst heq
        refine ⟨cs, hse, ?_⟩
        have h1 : List.Forall₂ (· ≤ ·) cs (List.zipWith max acc cs) :=
          forall₂_le_zipWith_max_right acc cs hcs.symm
        exact forall₂_le_trans h1 (sizeColumnsFrom_mono ssz fmts rest _ sizes h hlen')
      · exact ih (List.zipWith max acc cs) sizes r h hlen' htail

theorem sizeEachAux_percent (ssz : Nat) (fmts : List VarTableColumnFormat) :
    ∀ (row : List CellValue) (i j : Nat) (cs : List Nat),
      sizeEachAux ssz fmts i row = some cs →
      fmts.get? (i + j) = some .PERCENT → j < row.length →
      cs.get? j = some 6 := by
  intro row
  induction row with
  | nil => intro i j cs _ _ hj; simp at hj
  | cons c rest ih =>
    intro i j cs h hfmt hj
    simp only [sizeEachAux] at h
    cases hsd : sizeOfData ssz c with
    | none => rw [hsd] at h; simp at h
    | some sz =>
      rw [hsd] at h
      cases hrec : sizeEachAux ssz fmts (i + 1) rest with
      | none => rw [hrec] at h; simp at h
      | some rs =>
        rw [hrec] at h
        simp at h
        cases j with
        | zero =>
          have hi : fmts.get? i = some .PERCENT := by simpa using hfmt
          have hne : fmts ≠ [] := by
            intro he
            rw [he] at hi
            simp at hi
          have hi' : fmts[i]? = some VarTableColumnFormat.PERCENT := by
            rw [← List.get?_eq_getElem?]
            exact hi
          rw [← h]
          simp [hne, hi']
        | succ j' =>
          have hfmt' : fmts.get? (i + 1 + j') = some .PERCENT := by
            have : i + (j' + 1) = i + 1 + j' := by omega
            rw [← this]
            exact hfmt
          rw [← h]
          simp only [List.get?]
          exact ih (i + 1) j' rs hrec hfmt' (by simpa using hj)

/-! ## Line-width lemmas for the emission pass -/

/-- Total character width of every emitted line: a leading separator plus,
per column, the column width, the two paddings and the trailing separator. -/
def lineWidth (t : VarTable) : Nat :=
  1 + (t.column_sizes.map (fun w => w + 2 * t.cell_padding + 1)).sum

theorem getD_eq_headD_drop (l : List Nat) : ∀ i : Nat, l.getD i 0 = (l.drop i).headD 0 := by
  induction l with
  | nil => intro i; cases i <;> rfl
  | cons a tl ih =>
    intro i
    cases i with
    | zero => rfl
    | succ j => exact ih j

theorem drop_eq_cons_getD (l : List Nat) (i w : Nat) (ws : List Nat)
    (h : l.drop i = w :: ws) : l.getD i 0 = w ∧ l.drop (i + 1) = ws := by
  constructor
  · rw [getD_eq_headD_drop, h]
    rfl
  · have h2 := congrArg (List.drop 1) h
    rw [List.drop_drop] at h2
    simpa [Nat.add_comm] using h2

theorem cellBodyOf_length (t : VarTable) (i : Nat) (c : CellValue) (s : String)
    (h : s.length ≤ t.column_sizes.getD i 0) :
    (cellBodyOf t i c s).length = t.column_sizes.getD i 0 + 2 * t.cell_padding := by
  have hj := justifyCell_length (alignOf t i c) c (t.column_sizes.getD i 0) s
  have hmax : max (t.column_sizes.getD i 0) s.length = t.column_sizes.getD i 0 :=
    Nat.max_eq_left h
  rw [cellBodyOf, String.length_append, String.length_append, spaces_length, hj, hmax]
  omega

theorem rowCellsAux_body_lengths (t : VarTable) :
    ∀ (row : List CellValue) (i : Nat) (st : StreamState),
      List.Forall₂ (fun (s : String) (w : Nat) => s.length ≤ w)
        ((rowCellsAux t i st row).map Prod.fst) (t.column_sizes.drop i) →
      (rowCellsAux t i st row).map (fun p => p.2.length) =
        (t.column_sizes.drop i).map (fun w => w + 2 * t.cell_padding) := by
  intro row
  induction row with
  | nil =>
    intro i st hfit
    simp only [rowCellsAux, List.map_nil] at hfit ⊢
    have : t.column_sizes.drop i = [] := by
      cases hd : t.column_sizes.drop i with
      | nil => rfl
      | cons w ws => rw [hd] at hfit; exact absurd hfit (by simp)
    rw [this]
    rfl
  | cons c rest ih =>
    intro i st hfit
    simp only [rowCellsAux, List.map_cons] at hfit ⊢
    cases hd : t.column_sizes.drop i with
    | nil =>
      rw [hd] at hfit
      exact absurd hfit (by simp)
    | cons w ws =>
      rw [hd] at hfit
      rw [List.forall₂_cons] at hfit
      obtain ⟨hvw, htl⟩ := hfit
      obtain ⟨hgd, hdrop⟩ := drop_eq_cons_getD t.column_sizes i w ws hd
      rw [← hdrop] at htl
      have hbody := cellBodyOf_length t i c
        (renderValue (applyFormat t i (applyPrecision t i st)) c) (by rw [hgd]; exact hvw)
      rw [hgd] at hbody
      simp only [hbody, ih (i + 1) (resetFormat t (applyFormat t i (applyPrecision t i st))) htl,
        hdrop, List.map_cons]

theorem rowBodies_lengths (t : VarTable) (row : List CellValue)
    (hfit : List.Forall₂ (fun (s : String) (w : Nat) => s.length ≤ w)
      (rowValues t row) t.column_sizes) :
    (rowBodies t row).map String.length =
      t.column_sizes.map (fun w => w + 2 * t.cell_padding) := by
  have h0 : t.column_sizes.drop 0 = t.column_sizes := rfl
  have := rowCellsAux_body_lengths t row 0 initStream (by rw [h0]; exact hfit)
  rw [h0] at this
  rw [rowBodies, List.map_map]
  exact this

theorem concat_sep_length (sep : String) (hsep : sep.length = 1) (pad : Nat) :
    ∀ (bs : List String) (ws : List Nat),
      bs.map String.length = ws.map (fun w => w + 2 * pad) →
      (strConcat (bs.map (fun b => b ++ sep))).length =
        (ws.map (fun w => w + 2 * pad + 1)).sum := by
  intro bs
  induction bs with
  | nil =>
    intro ws h
    cases ws with
    | nil => rfl
    | cons w ws' => simp at h
  | cons b bs' ih =>
    intro ws h
    cases ws with
    | nil => simp at h
    | cons w ws' =>
      simp only [List.map_cons, List.cons.injEq] at h
      obtain ⟨hb, htl⟩ := h
      have : strConcat ((b ++ sep) :: bs'.map (fun x => x ++ sep)) =
          (b ++ sep) ++ strConcat (bs'.map (fun x => x ++ sep)) := rfl
      simp only [List.map_cons, this, String.length_append, ih ws' htl, List.map_cons,
        List.sum_cons, hb, hsep]

theorem rowLine_length (t : VarTable) (row : List CellValue)
    (hfit : List.Forall₂ (fun (s : String) (w : Nat) => s.length ≤ w)
      (rowValues t row) t.column_sizes) :
    (rowLine t row).length = lineWidth t := by
  have hb := rowBodies_lengths t row hfit
  rw [rowLine, String.length_append, sepChar_length,
    concat_sep_length (sepChar t.print_style) (sepChar_length t.print_style)
      t.cell_padding (rowBodies t row) t.column_sizes hb, lineWidth]

theorem header_concat_length (sep : String) (hsep : sep.length = 1) (pad : Nat) :
    ∀ (hs : List String) (ws : List Nat),
      List.Forall₂ (fun (h : String) (w : Nat) => h.length ≤ w) hs ws →
      (strConcat ((hs.zip ws).map (fun p => headerCell pad p.2 p.1 ++ sep))).length =
        (ws.map (fun w => w + 2 * pad + 1)).sum := by
  intro hs ws hfor
  induction hfor with
  | nil => rfl
  | cons hhw htl ih =>
    next h w hs' ws' =>
    have hcell := headerCell_length pad w h hhw
    have : strConcat ((headerCell pad w h ++ sep) ::
        (hs'.zip ws').map (fun p => headerCell pad p.2 p.1 ++ sep)) =
        (headerCell pad w h ++ sep) ++
          strConcat ((hs'.zip ws').map (fun p => headerCell pad p.2 p.1 ++ sep)) := rfl
    simp only [List.zip_cons_cons, List.map_cons, this, String.length_append, ih,
      List.sum_cons, hcell, hsep]

theorem headerLine_length (t : VarTable)
    (hfor : List.Forall₂ (fun (h : String) (w : Nat) => h.length ≤ w)
      t.headers t.column_sizes) :
    (headerLine t).length = lineWidth t := by
  rw [headerLine, String.length_append, sepChar_length,
    header_concat_length (sepChar t.print_style) (sepChar_length t.print_style)
      t.cell_padding t.headers t.column_sizes hfor, lineWidth]

theorem dash_concat_length (ch : String) (hch : ch.length = 1) (pad : Nat) :
    ∀ (ws : List Nat),
      (strConcat (ws.map (fun w => dashes (w + 2 * pad) ++ ch))).length =
        (ws.map (fun w => w + 2 * pad + 1)).sum := by
  intro ws
  induction ws with
  | nil => rfl
  | cons w ws' ih =>
    have : strConcat ((dashes (w + 2 * pad) ++ ch) ::
        ws'.map (fun x => dashes (x + 2 * pad) ++ ch)) =
        (dashes (w + 2 * pad) ++ ch) ++
          strConcat (ws'.map (fun x => dashes (x + 2 * pad) ++ ch)) := rfl
    simp only [List.map_cons, this, String.length_append, ih, List.sum_cons,
      dashes_length, hch]

theorem plusLine_length (t : VarTable) : (plusLine t).length = lineWidth t := by
  have h1 : ("+" : String).length = 1 := rfl
  rw [plusLine, String.length_append, h1,
    dash_concat_length "+" h1 t.cell_padding t.column_sizes, lineWidth]

theorem simpleLine_length (t : VarTable) : (simpleLine t).length = lineWidth t := by
  have h1 : (" " : String).length = 1 := rfl
  rw [simpleLine, String.length_append, h1,
    dash_concat_length " " h1 t.cell_padding t.column_sizes, lineWidth]

theorem print_plus_length (t : VarTable) (l : String) (h : l ∈ print_plus t) :
    l.length = lineWidth t := by
  unfold print_plus at h
  cases hs : t.print_style <;> rw [hs] at h <;> simp at h <;>
    first
      | (rw [h]; exact plusLine_length t)
      | (rw [h]; exact simpleLine_length t)

/-! ## Concrete tables used by counterexamples and witnesses -/

/-- A one-column table whose format is `PERCENT` with no rows added: the
sizing pass never runs `size_each`, so the 6-wide override never fires. -/
def percentNoRowsTable : VarTable :=
  { headers := ["A"], num_columns := 1, static_column_size := 0, cell_padding := 1
    data := [], column_sizes := [], column_format := [.PERCENT]
    print_style := .BASIC, alignment_style := [], precision := [] }

/-- A one-column `FIXED` floating table with static column size 0: the cell
renders as `1.500000` (8 characters) inside a column sized 1. -/
def overflowTable : VarTable :=
  { headers := ["W"], num_columns := 1, static_column_size := 0, cell_padding := 1
    data := [[.floatVal ⟨15, 1⟩]], column_sizes := [], column_format := [.FIXED]
    print_style := .BASIC, alignment_style := [], precision := [] }

/-- A two-column table formatted `{PERCENT, FIXED}` with no precision list. -/
def leakTable : VarTable :=
  { headers := ["P", "F"], num_columns := 2, static_column_size := 0, cell_padding := 1
    data := [], column_sizes := [], column_format := [.PERCENT, .FIXED]
    print_style := .BASIC, alignment_style := [], precision := [] }

/-- A one-column `FIXED` table with no precision list: the same column
configuration as `leakTable`'s second column, with no preceding column. -/
def leakTableSingle : VarTable :=
  { headers := ["F"], num_columns := 1, static_column_size := 0, cell_padding := 1
    data := [], column_sizes := [], column_format := [.FIXED]
    print_style := .BASIC, alignment_style := [], precision := [] }

/-- A one-row, one-column table in `SIMPLE` style. -/
def simpleTable : VarTable :=
  { headers := ["A"], num_columns := 1, static_column_size := 0, cell_padding := 1
    data := [[.str "x"]], column_sizes := [], column_format := []
    print_style := .SIMPLE, alignment_style := [], precision := [] }

/-- A one-column `PERCENT` table with a configured precision of 7. -/
def percentIntTable : VarTable :=
  { headers := ["X"], num_columns := 1, static_column_size := 0, cell_padding := 1
    data := [], column_sizes := [], column_format := [.PERCENT]
    print_style := .BASIC, alignment_style := [], precision := [7] }

/-- A one-column `PERCENT` table holding one integral row. -/
def percentRowTable : VarTable :=
  { headers := ["A"], num_columns := 1, static_column_size := 0, cell_padding := 1
    data := [[.intVal 3]], column_sizes := [], column_format := [.PERCENT]
    print_style := .BASIC, alignment_style := [], precision := [] }

/-- A plain two-column text/integer table in `BASIC` style. -/
def basicTable : VarTable :=
  { headers := ["Name", "Age"], num_columns := 2, static_column_size := 0, cell_padding := 1
    data := [[.str "Ed", .intVal 5]], column_sizes := [], column_format := []
    print_style := .BASIC, alignment_style := [], precision := [] }

/-- The table produced by `mkVarTable 1 ["A"] 0 1`. -/
def tA10 : VarTable :=
  { headers := ["A"], num_columns := 1, static_column_size := 0, cell_padding := 1
    data := [], column_sizes := [], column_format := []
    print_style := .BASIC, alignment_style := [], precision := [] }

/-! ## Unfolding lemmas for print -/

theorem size_columns_set_sizes (t : VarTable) (x : List Nat) :
    size_columns { t with column_sizes := x } = size_columns t := rfl

theorem print_eq (t : VarTable) (sizes : List Nat) (hsz : size_columns t = some sizes) :
    t.print = some ({ t with column_sizes := sizes },
      printLayout { t with column_sizes := sizes }) := by
  unfold VarTable.print
  rw [hsz]

theorem print_inv (t t1 : VarTable) (out : List String) (hp : t.print = some (t1, out)) :
    ∃ sizes, size_columns t = some sizes ∧ t1 = { t with column_sizes := sizes } ∧
      out = printLayout t1 := by
  unfold VarTable.print at hp
  cases hsz : size_columns t with
  | none => rw [hsz] at hp; exact absurd hp (by simp)
  | some sizes =>
    rw [hsz] at hp
    simp only [Option.some.injEq, Prod.mk.injEq] at hp
    exact ⟨sizes, rfl, hp.1.symm, by rw [← hp.1]; exact hp.2.symm⟩

/-! ## Claims -/

/-- C3: `print` is idempotent and side-effect-free on the data: a second
`print` with no intervening `addRow` or setter call emits the same lines and
the same bytes, and leaves the instance in the same state (the only field
`print` writes, `_column_sizes`, is recomputed from the unchanged headers,
rows and configuration). -/
theorem claim_C3_print_idempotent (t t1 : VarTable) (out : List String)
    (hp : t.print = some (t1, out)) :
    t1.print = some (t1, out) ∧ t1.printString = t.printString := by
  obtain ⟨sizes, hsz, ht1, hout⟩ := print_inv t t1 out hp
  have hsz1 : size_columns t1 = some sizes := by
    rw [ht1, size_columns_set_sizes]
    exact hsz
  have hidem : { t1 with column_sizes := sizes } = t1 := by rw [ht1]
  have hp1 : t1.print = some (t1, out) := by
    rw [print_eq t1 sizes hsz1, hidem, ← hout]
  refine ⟨hp1, ?_⟩
  unfold VarTable.printString
  rw [hp, hp1]

/-- Witness for C3 at a concrete table: printing `basicTable` once and then
printing the resulting state again yields the same lines and bytes. -/
theorem claim_C3_print_idempotent_witness :
    ({ basicTable with column_sizes := [4, 3] } : VarTable).print =
      some ({ basicTable with column_sizes := [4, 3] },
        ["+------+-----+", "| Name | Age |", "+------+-----+",
         "| Ed   |   5 |", "+------+-----+"]) ∧
    ({ basicTable with column_sizes := [4, 3] } : VarTable).printString =
      basicTable.printString :=
  claim_C3_print_idempotent basicTable { basicTable with column_sizes := [4, 3] }
    ["+------+-----+", "| Name | Age |", "+------+-----+",
     "| Ed   |   5 |", "+------+-----+"] rfl

/-- C4: the integral overload of `sizeOfData` returns
`floor(log10 v) + 1` digits for positive `v` and `1` for `v = 0`, but for a
negative `v` it does not return `floor(log10 |v|) + 1`: `std::log10` of a
negative value is NaN and converting NaN to `size_t` is undefined behaviour
(modelled by `none`), so the claim's "taking the absolute value before the
logarithm" does not hold of the code. -/
theorem claim_C4_int_display_length :
    (∀ v : Int, 0 < v → sizeOfDataInt v = some (Nat.log 10 v.toNat + 1)) ∧
    sizeOfDataInt 0 = some 1 ∧
    sizeOfDataInt (-5) = none := by
  refine ⟨?_, rfl, rfl⟩
  intro v hv
  have hne : ¬ v = 0 := by omega
  simp only [sizeOfDataInt, hne, if_false, hv, if_true]
  rw [digits10_eq_log v.toNat (by omega)]

/-- Witness for C4 at a concrete positive value. -/
theorem claim_C4_int_display_length_witness :
    (0 : Int) < 160 ∧ sizeOfDataInt 160 = some (Nat.log 10 (160 : Int).toNat + 1) :=
  ⟨by decide, claim_C4_int_display_length.1 160 (by decide)⟩

/-- C8: each list-valued setter rejects a list whose length differs from the
column count with `ConfigMismatch` and no state change (the `assert` aborts
before the assignment), and on a matching length stores the given list
exactly — never truncated, padded, or partially applied. -/
theorem claim_C8_setter_mismatch (t : VarTable) (fmts : List VarTableColumnFormat)
    (al : List AlignmentStyle) (pr : List Int) :
    (fmts.length ≠ t.num_columns → t.setColumnFormat fmts = .error .ConfigMismatch) ∧
    (al.length ≠ t.num_columns → t.setAlignmentStyle al = .error .ConfigMismatch) ∧
    (pr.length ≠ t.num_columns → t.setColumnPrecision pr = .error .ConfigMismatch) ∧
    (fmts.length = t.num_columns →
      t.setColumnFormat fmts = .ok { t with column_format := fmts }) ∧
    (al.length = t.num_columns →
      t.setAlignmentStyle al = .ok { t with alignment_style := al }) ∧
    (pr.length = t.num_columns →
      t.setColumnPrecision pr = .ok { t with precision := pr }) := by
  refine ⟨fun h => ?_, fun h => ?_, fun h => ?_, fun h => ?_, fun h => ?_, fun h => ?_⟩ <;>
    simp [VarTable.setColumnFormat, VarTable.setAlignmentStyle,
      VarTable.setColumnPrecision, h]

/-- Witness for C8: a one-element format list on a two-column table is
rejected, and a two-element list is stored exactly. -/
theorem claim_C8_setter_mismatch_witness :
    basicTable.setColumnFormat [.AUTO] = .error .ConfigMismatch ∧
    basicTable.setColumnFormat [.AUTO, .FIXED] =
      .ok { basicTable with column_format := [.AUTO, .FIXED] } :=
  ⟨(claim_C8_setter_mismatch basicTable [.AUTO] [] []).1 (by decide),
   (claim_C8_setter_mismatch basicTable [.AUTO, .FIXED] [] []).2.2.2.1 (by decide)⟩

theorem rowCellsAux_setPrintStyle (t : VarTable) (s : PrintStyle) :
    ∀ (row : List CellValue) (i : Nat) (st : StreamState),
      rowCellsAux (t.setPrintStyle s) i st row = rowCellsAux t i st row := by
  intro row
  induction row with
  | nil => intro i st; rfl
  | cons c rest ih =>
    intro i st
    simp only [rowCellsAux]
    rw [ih]
    rfl

/-- C9: the print style never influences width computation or cell contents:
`size_columns` and the per-row value strings and cell bodies are unchanged by
`setPrintStyle` — only the border and separator characters chosen at emission
depend on the style. -/
theorem claim_C9_style_width_independent (t : VarTable) (s : PrintStyle) :
    size_columns (t.setPrintStyle s) = size_columns t ∧
    ∀ row, rowValues (t.setPrintStyle s) row = rowValues t row ∧
      rowBodies (t.setPrintStyle s) row = rowBodies t row :=
  ⟨rfl, fun row =>
    ⟨congrArg (List.map Prod.fst) (rowCellsAux_setPrintStyle t s row 0 initStream),
     congrArg (List.map Prod.snd) (rowCellsAux_setPrintStyle t s row 0 initStream)⟩⟩

/-- C1 counterexample: on a `PERCENT`-formatted column of a table with no
rows, the computed width is just the header length (here 1), so the claim
that every `PERCENT` column renders with width at least 6 fails. -/
theorem claim_C1_counterexample :
    percentNoRowsTable.column_format = [.PERCENT] ∧
    ¬ (∀ sizes, size_columns percentNoRowsTable = some sizes → ∀ w ∈ sizes, 6 ≤ w) := by
  refine ⟨rfl, ?_⟩
  intro hall
  have h1 : size_columns percentNoRowsTable = some [1] := rfl
  have := hall [1] h1 1 (by simp)
  omega

/-- C1 (amended): for a well-formed table whose sizing pass succeeds, every
computed column width is at least the header length and at least every
accumulated cell's display length (the `size_each` value, after the `PERCENT`
override), and a `PERCENT` column's width is at least 6 provided at least one
data row has been added (with zero rows the width is just the header length). -/
theorem claim_C1_width_lower_bounds (t : VarTable) (sizes : List Nat)
    (hH : t.headers.length = t.num_columns)
    (hD : ∀ r ∈ t.data, r.length = t.num_columns)
    (hs : size_columns t = some sizes) :
    List.Forall₂ (fun (h : String) (w : Nat) => h.length ≤ w) t.headers sizes ∧
    (∀ r ∈ t.data, ∀ cs, size_each t.static_column_size t.column_format r = some cs →
      List.Forall₂ (· ≤ ·) cs sizes) ∧
    (∀ i, t.column_format.get? i = some .PERCENT → i < t.num_columns → t.data ≠ [] →
      ∃ w, sizes.get? i = some w ∧ 6 ≤ w) := by
  have hacc : (t.headers.map String.length).length = t.num_columns := by
    simp [hH]
  have hrows : ∀ r ∈ t.data, r.length = (t.headers.map String.length).length := by
    intro r hr
    rw [hacc]
    exact hD r hr
  refine ⟨?_, ?_, ?_⟩
  · have := sizeColumnsFrom_mono t.static_column_size t.column_format t.data
      (t.headers.map String.length) sizes hs hrows
    exact List.forall₂_map_left_iff.mp this
  · intro r hr cs hcs
    obtain ⟨cs', hcs', hle⟩ := sizeColumnsFrom_row t.static_column_size t.column_format
      t.data (t.headers.map String.length) sizes r hs hrows hr
    rw [hcs] at hcs'
    injection hcs' with h
    rw [h]
    exact hle
  · intro i hfmt hi hne
    cases hdata : t.data with
    | nil => exact absurd hdata hne
    | cons r0 rest =>
      have hr0 : r0 ∈ t.data := by rw [hdata]; simp
      obtain ⟨cs, hcs, hle⟩ := sizeColumnsFrom_row t.static_column_size t.column_format
        t.data (t.headers.map String.length) sizes r0 hs hrows hr0
      have hfmt0 : t.column_format.get? (0 + i) = some .PERCENT := by simpa using hfmt
      have hlen0 : i < r0.length := by rw [hD r0 hr0]; exact hi
      have h6 : cs.get? i = some 6 :=
        sizeEachAux_percent t.static_column_size t.column_format r0 0 i cs hcs hfmt0 hlen0
      obtain ⟨w, hw, hlew⟩ := forall₂_get? hle h6
      exact ⟨w, hw, hlew⟩

/-- Witness for C1 at a concrete table: one `PERCENT` column, header of
length 1, one integral row — the computed width is 6. -/
theorem claim_C1_width_lower_bounds_witness :
    List.Forall₂ (fun (h : String) (w : Nat) => h.length ≤ w) percentRowTable.headers [6] ∧
    (∀ r ∈ percentRowTable.data, ∀ cs,
      size_each percentRowTable.static_column_size percentRowTable.column_format r = some cs →
      List.Forall₂ (· ≤ ·) cs [6]) ∧
    (∀ i, percentRowTable.column_format.get? i = some .PERCENT →
      i < percentRowTable.num_columns → percentRowTable.data ≠ [] →
      ∃ w, ([6] : List Nat).get? i = some w ∧ 6 ≤ w) :=
  claim_C1_width_lower_bounds percentRowTable [6] (by decide) (by decide) rfl

/-- C5: formatting state leaks between cells — the claim that a cell's
rendering never depends on a preceding column's format fails on the code.
In `leakTable` (formats `{PERCENT, FIXED}`, no precision list) the second
column renders `1.5` as `"1.50"`: the `setprecision(2)` forced by the
preceding `PERCENT` column is never restored (`unsetf` clears only the
floatfield). The identically configured single `FIXED` column of
`leakTableSingle` renders the same value as `"1.500000"` (default
precision 6). -/
theorem claim_C5_precision_leak :
    rowValues leakTable [.floatVal ⟨5, 1⟩, .floatVal ⟨15, 1⟩] = ["0.50", "1.50"] ∧
    rowValues leakTableSingle [.floatVal ⟨15, 1⟩] = ["1.500000"] ∧
    leakTable.column_format.get? 1 = some .FIXED ∧
    leakTableSingle.column_format.get? 0 = some .FIXED ∧
    leakTable.precision = [] ∧
    leakTableSingle.precision = [] ∧
    ("1.50" : String) ≠ "1.500000" :=
  ⟨rfl, rfl, rfl, rfl, rfl, rfl, by decide⟩

/-- C6 counterexample: a `SIMPLE`-style table does emit a line between the
header and the first data row — the space-bordered dash line — so the
style-table statement "separator after header: none" fails (if it held, this
one-row table would print exactly 2 lines; it prints 3, the middle one being
the dash line). -/
theorem claim_C6_counterexample :
    simpleTable.print_style = .SIMPLE ∧
    (simpleTable.print).map Prod.snd = some ["  A  ", " --- ", "  x  "] ∧
    (["  A  ", " --- ", "  x  "] : List String).length ≠ 2 :=
  ⟨rfl, rfl, by decide⟩

theorem flatMap_singleton_eq_map {α β : Type} (f : α → β) :
    ∀ l : List α, (l.flatMap fun x => [f x]) = l.map f := by
  intro l
  induction l with
  | nil => rfl
  | cons a tl ih => simp only [List.flatMap_cons, List.map_cons, List.singleton_append, ih]

/-- C6 (amended): a `SIMPLE`-style table emits exactly one space-bordered
dash line, immediately after the header line, and no other border lines —
the layout is header line, dash line, then the data-row lines. -/
theorem claim_C6_simple_layout (t t' : VarTable) (lines : List String)
    (hs : t.print_style = .SIMPLE) (hp : t.print = some (t', lines)) :
    lines = headerLine t' :: simpleLine t' :: t'.data.map (rowLine t') := by
  obtain ⟨sizes, hsz, ht', hout⟩ := print_inv t t' lines hp
  have hs' : t'.print_style = .SIMPLE := by rw [ht']; exact hs
  rw [hout, printLayout]
  simp [print_plus, hs', flatMap_singleton_eq_map]

/-- Witness for C6 at the concrete one-row `SIMPLE` table. -/
theorem claim_C6_simple_layout_witness :
    (["  A  ", " --- ", "  x  "] : List String) =
      headerLine { simpleTable with column_sizes := [1] } ::
        simpleLine { simpleTable with column_sizes := [1] } ::
          ({ simpleTable with column_sizes := [1] } : VarTable).data.map
            (rowLine { simpleTable with column_sizes := [1] }) :=
  claim_C6_simple_layout simpleTable { simpleTable with column_sizes := [1] }
    ["  A  ", " --- ", "  x  "] rfl rfl

/-! ## PERCENT rendering lemmas -/

theorem padDigits_length : ∀ (p m : Nat), (padDigits p m).length = p := by
  intro p
  induction p with
  | zero => intro m; rfl
  | succ q ih => intro m; simp [padDigits, ih]

theorem digitChar_ne_dot (k : Nat) (hk : k < 10) : Nat.digitChar k ≠ '.' := by
  interval_cases k <;> decide

theorem padDigits_mem_ne_dot : ∀ (p m : Nat) (c : Char), c ∈ padDigits p m → c ≠ '.' := by
  intro p
  induction p with
  | zero => intro m c hc; simp [padDigits] at hc
  | succ q ih =>
    intro m c hc
    simp only [padDigits, List.mem_append, List.mem_singleton] at hc
    rcases hc with hc | hc
    · exact ih (m / 10) c hc
    · rw [hc]
      exact digitChar_ne_dot (m % 10) (Nat.mod_lt m (by norm_num))

theorem takeWhile_stops (p : Char → Bool) :
    ∀ (l1 : List Char) (x : Char) (l2 : List Char), (∀ c ∈ l1, p c) → p x = false →
      (l1 ++ x :: l2).takeWhile p = l1 := by
  intro l1 x l2 h1 h2
  induction l1 with
  | nil => simp [List.takeWhile, h2]
  | cons c cs ih =>
    have hc : p c := h1 c (by simp)
    simp only [List.cons_append, List.takeWhile_cons, hc, if_true]
    rw [ih (fun d hd => h1 d (by simp [hd]))]

theorem renderFixed_digit_structure (p : Nat) (hp : p ≠ 0) (v : DecF) :
    '.' ∈ (renderFixed p v).data ∧
    ((renderFixed p v).data.reverse.takeWhile (fun c => c ≠ '.')).length = p := by
  have hform : renderFixed p v =
      (if v.mant < 0 then "-" else "") ++
        (natStr (decRoundAbs v (p : Int) / 10 ^ p) ++ "." ++
          String.mk (padDigits p (decRoundAbs v (p : Int) % 10 ^ p))) := by
    rw [renderFixed, fixedAssemble]
    simp [hp]
  set sgn := (if v.mant < 0 then "-" else "") with hsgn
  set q := decRoundAbs v (p : Int) / 10 ^ p
  set r := decRoundAbs v (p : Int) % 10 ^ p
  have hdata : (renderFixed p v).data =
      (sgn.data ++ (natStr q).data ++ ['.']) ++ padDigits p r := by
    rw [hform]
    simp [String.data_append]
  constructor
  · rw [hdata]
    simp
  · rw [hdata, List.reverse_append]
    have h2 : (sgn.data ++ (natStr q).data ++ ['.']).reverse =
        '.' :: (sgn.data ++ (natStr q).data).reverse := by simp
    rw [h2, takeWhile_stops _ (padDigits p r).reverse '.'
      ((sgn.data ++ (natStr q).data).reverse)
      (fun c hc => by
        have hmem : c ∈ padDigits p r := List.mem_reverse.mp hc
        have := padDigits_mem_ne_dot p r c hmem
        simpa using this)
      (by decide)]
    simp [padDigits_length]

theorem rowCellsAux_get_fst (t : VarTable) :
    ∀ (row : List CellValue) (i0 : Nat) (st : StreamState) (j : Nat) (c : CellValue),
      row.get? j = some c →
      ∃ st', ((rowCellsAux t i0 st row).map Prod.fst).get? j =
        some (cellValueStr t (i0 + j) st' c) := by
  intro row
  induction row with
  | nil => intro i0 st j c hc; simp at hc
  | cons c0 rest ih =>
    intro i0 st j c hc
    cases j with
    | zero =>
      refine ⟨st, ?_⟩
      simp only [List.get?] at hc
      injection hc with hc
      simp only [rowCellsAux, List.map_cons, List.get?, Nat.add_zero, ← hc]
      rfl
    | succ j' =>
      simp only [List.get?] at hc
      obtain ⟨st', hst⟩ := ih (i0 + 1)
        (resetFormat t (applyFormat t i0 (applyPrecision t i0 st))) j' c hc
      refine ⟨st', ?_⟩
      have harith : i0 + 1 + j' = i0 + (j' + 1) := by omega
      rw [harith] at hst
      simpa only [rowCellsAux, List.map_cons, List.get?] using hst

theorem cellValueStr_percent (t : VarTable) (i : Nat) (st : StreamState) (v : DecF)
    (hf : t.column_format.get? i = some .PERCENT) :
    cellValueStr t i st (.floatVal v) = renderFixed 2 v := by
  have hne : t.column_format ≠ [] := by
    intro h
    rw [h] at hf
    simp at hf
  have hi' : t.column_format[i]? = some VarTableColumnFormat.PERCENT := by
    rw [← List.get?_eq_getElem?]
    exact hf
  have hgd : t.column_format.getD i VarTableColumnFormat.AUTO =
      VarTableColumnFormat.PERCENT := by
    simp [List.getD, hi']
  unfold cellValueStr applyFormat
  simp only [hne, if_false, hgd]
  rfl

/-- C7 counterexample: not every cell of a `PERCENT` column is rendered in
fixed-point notation with two digits after the decimal point — `std::fixed`
and `setprecision` do not affect an integral insertion, so the integral cell
`16` of a `PERCENT` column renders as `"16"`, with no decimal point at all. -/
theorem claim_C7_counterexample :
    percentIntTable.column_format = [.PERCENT] ∧
    rowValues percentIntTable [.intVal 16] = ["16"] ∧
    ¬ '.' ∈ ("16" : String).data :=
  ⟨rfl, rfl, by decide⟩

/-- C7 (amended): every floating-point cell of a `PERCENT` column is rendered
as `renderFixed 2` of its value — fixed-point notation with exactly 2 digits
after the decimal point — regardless of the table's configured precision list
and of the stream state left by preceding columns. -/
theorem claim_C7_percent_two_digits (t : VarTable) (row : List CellValue) (i : Nat)
    (v : DecF) (hf : t.column_format.get? i = some .PERCENT)
    (hc : row.get? i = some (.floatVal v)) :
    (rowValues t row).get? i = some (renderFixed 2 v) ∧
    '.' ∈ (renderFixed 2 v).data ∧
    ((renderFixed 2 v).data.reverse.takeWhile (fun c => c ≠ '.')).length = 2 := by
  obtain ⟨st', hst⟩ := rowCellsAux_get_fst t row 0 initStream i (.floatVal v) hc
  obtain ⟨hdot, hlen⟩ := renderFixed_digit_structure 2 (by decide) v
  refine ⟨?_, hdot, hlen⟩
  rw [rowValues]
  rw [hst, Nat.zero_add] at *
  rw [cellValueStr_percent t i st' v hf]

/-- Witness for C7 at a concrete table: the value `0.14` in a `PERCENT`
column with configured precision 7 renders as `"0.14"`. -/
theorem claim_C7_percent_two_digits_witness :
    ((rowValues percentIntTable [.floatVal ⟨14, 2⟩]).get? 0 =
      some (renderFixed 2 ⟨14, 2⟩) ∧
    '.' ∈ (renderFixed 2 (⟨14, 2⟩ : DecF)).data ∧
    ((renderFixed 2 (⟨14, 2⟩ : DecF)).data.reverse.takeWhile
      (fun c => c ≠ '.')).length = 2) ∧
    renderFixed 2 (⟨14, 2⟩ : DecF) = "0.14" :=
  ⟨claim_C7_percent_two_digits percentIntTable [.floatVal ⟨14, 2⟩] 0 ⟨14, 2⟩ rfl rfl, rfl⟩

/-- C2 counterexample: lines do not always have equal width — `setw` is a
minimum, so a formatted cell longer than its computed column width widens its
row line. In `overflowTable` the float column is sized by the static column
size 0 while the cell renders as `1.500000`, so the data-row line is longer
than the header line. -/
theorem claim_C2_counterexample :
    (overflowTable.print).map Prod.snd =
      some ["+---+", "| W |", "+---+", "| 1.500000 |", "+---+"] ∧
    ("| W |" : String).length ≠ ("| 1.500000 |" : String).length :=
  ⟨rfl, by decide⟩

theorem mem_ite_nil {c : Prop} [Decidable c] {l : String} {xs : List String}
    (h : l ∈ (if c then xs else [])) : l ∈ xs := by
  split at h
  · exact h
  · simp at h

/-- C2 (amended): for a well-formed table, provided every rendered cell
string fits within its column's computed width (which `size_columns`
guarantees for text and nonnegative integral columns, but not for floating
columns when the static column size is too small — see the counterexample),
every line `print` emits (header, data rows, and border lines alike) has the
same total character width. -/
theorem claim_C2_lines_equal_width (t t' : VarTable) (lines : List String)
    (hH : t.headers.length = t.num_columns)
    (hD : ∀ r ∈ t.data, r.length = t.num_columns)
    (hp : t.print = some (t', lines))
    (hfit : ∀ r ∈ t.data, List.Forall₂ (fun (s : String) (w : Nat) => s.length ≤ w)
      (rowValues t' r) t'.column_sizes) :
    ∀ l ∈ lines, l.length = lineWidth t' := by
  obtain ⟨sizes, hsz, ht', hout⟩ := print_inv t t' lines hp
  have hacc : (t.headers.map String.length).length = t.num_columns := by simp [hH]
  have hrows : ∀ r ∈ t.data, r.length = (t.headers.map String.length).length := by
    intro r hr
    rw [hacc]
    exact hD r hr
  have hmono := sizeColumnsFrom_mono t.static_column_size t.column_format t.data
    (t.headers.map String.length) sizes hsz hrows
  subst ht'
  have hfor : List.Forall₂ (fun (h : String) (w : Nat) => h.length ≤ w)
      ({ t with column_sizes := sizes } : VarTable).headers
      ({ t with column_sizes := sizes } : VarTable).column_sizes :=
    List.forall₂_map_left_iff.mp hmono
  intro l hl
  rw [hout, printLayout] at hl
  rcases List.mem_append.mp hl with hl2 | hD
  · rcases List.mem_append.mp hl2 with hl3 | hC
    · rcases List.mem_append.mp hl3 with h1 | h2
      · exact print_plus_length _ l (mem_ite_nil h1)
      · rcases List.mem_cons.mp h2 with he | hB
        · rw [he]
          exact headerLine_length _ hfor
        · exact print_plus_length _ l (mem_ite_nil hB)
    · rw [List.mem_flatMap] at hC
      obtain ⟨row, hrow, hmem⟩ := hC
      rcases List.mem_cons.mp hmem with hre | hrp
      · rw [hre]
        exact rowLine_length _ row (hfit row hrow)
      · exact print_plus_length _ l (mem_ite_nil hrp)
  · exact print_plus_length _ l (mem_ite_nil hD)

/-- Witness for C2 at a concrete text/integer table: the data-row line of
`basicTable` has the common line width. -/
theorem claim_C2_lines_equal_width_witness :
    ("| Ed   |   5 |" : String).length =
      lineWidth { basicTable with column_sizes := [4, 3] } :=
  claim_C2_lines_equal_width basicTable { basicTable with column_sizes := [4, 3] }
    ["+------+-----+", "| Name | Age |", "+------+-----+",
     "| Ed   |   5 |", "+------+-----+"]
    (by decide) (by decide) rfl
    (fun r hr => by
      have hr' : r = [CellValue.str "Ed", CellValue.intVal 5] := by
        simpa [basicTable] using hr
      subst hr'
      have hc : List.Forall₂ (fun (s : String) (w : Nat) => s.length ≤ w)
          ["Ed", "5"] [4, 3] :=
        List.Forall₂.cons (by decide) (List.Forall₂.cons (by decide) List.Forall₂.nil)
      exact hc)
    "| Ed   |   5 |" (by decide)

/-- C10: a newly constructed table prints in `BASIC` style — the constructor
sets `_print_style` to `BASIC`, no other operation changes it, and in `BASIC`
style `print` emits a top border, a `"|"`-separated header line, a border
after the header, the data rows, and a bottom border after the last row. -/
theorem claim_C10_default_basic :
    (∀ (n : Nat) (hs : List String) (ssz pad : Nat) (t : VarTable),
      mkVarTable n hs ssz pad = some t → t.print_style = .BASIC) ∧
    (∀ (t : VarTable) (row : List CellValue),
      (t.addRow row).print_style = t.print_style) ∧
    (∀ (t : VarTable) (fmts : List VarTableColumnFormat) (t2 : VarTable),
      t.setColumnFormat fmts = .ok t2 → t2.print_style = t.print_style) ∧
    (∀ (t : VarTable) (al : List AlignmentStyle) (t2 : VarTable),
      t.setAlignmentStyle al = .ok t2 → t2.print_style = t.print_style) ∧
    (∀ (t : VarTable) (pr : List Int) (t2 : VarTable),
      t.setColumnPrecision pr = .ok t2 → t2.print_style = t.print_style) ∧
    (∀ (t t' : VarTable) (lines : List String), t.print_style = .BASIC →
      t.print = some (t', lines) →
      sepChar t'.print_style = "|" ∧
      lines = plusLine t' :: headerLine t' :: plusLine t' ::
        (t'.data.map (rowLine t') ++ [plusLine t'])) := by
  refine ⟨?_, ?_, ?_, ?_, ?_, ?_⟩
  · intro n hs ssz pad t h
    unfold mkVarTable at h
    split at h
    · injection h with h
      rw [← h]
    · exact absurd h (by simp)
  · intro t row
    rfl
  · intro t fmts t2 h
    unfold VarTable.setColumnFormat at h
    split at h
    · injection h with h
      rw [← h]
    · exact absurd h (by simp)
  · intro t al t2 h
    unfold VarTable.setAlignmentStyle at h
    split at h
    · injection h with h
      rw [← h]
    · exact absurd h (by simp)
  · intro t pr t2 h
    unfold VarTable.setColumnPrecision at h
    split at h
    · injection h with h
      rw [← h]
    · exact absurd h (by simp)
  · intro t t' lines hsb hp
    obtain ⟨sizes, hsz, ht', hout⟩ := print_inv t t' lines hp
    have hs' : t'.print_style = .BASIC := by rw [ht']; exact hsb
    constructor
    · rw [hs']
      rfl
    · rw [hout, printLayout]
      simp [print_plus, hs', flatMap_singleton_eq_map]

/-- Witness for C10: the table built by the constructor prints with the
`BASIC` borders. -/
theorem claim_C10_default_basic_witness :
    tA10.print_style = .BASIC ∧
    (sepChar ({ tA10.addRow [CellValue.str "x"] with
        column_sizes := [1] } : VarTable).print_style = "|" ∧
      ["+---+", "| A |", "+---+", "| x |", "+---+"] =
        plusLine { tA10.addRow [CellValue.str "x"] with column_sizes := [1] } ::
          headerLine { tA10.addRow [CellValue.str "x"] with column_sizes := [1] } ::
            plusLine { tA10.addRow [CellValue.str "x"] with column_sizes := [1] } ::
              (({ tA10.addRow [CellValue.str "x"] with
                  column_sizes := [1] } : VarTable).data.map
                (rowLine { tA10.addRow [CellValue.str "x"] with column_sizes := [1] }) ++
                [plusLine { tA10.addRow [CellValue.str "x"] with column_sizes := [1] }])) :=
  ⟨claim_C10_default_basic.1 1 ["A"] 0 1 tA10 rfl,
   claim_C10_default_basic.2.2.2.2.2 (tA10.addRow [CellValue.str "x"])
     { tA10.addRow [CellValue.str "x"] with column_sizes := [1] }
     ["+---+", "| A |", "+---+", "| x |", "+---+"] rfl rfl⟩
